import Mathlib

/-!
Shallow embedding of the clipping web application's core (`src/app.py`):
the input parser `parse_input_data`, the Cohen–Sutherland segment clipper
`cohen_sutherland_clip` and the Sutherland–Hodgman polygon clipper
`sutherland_hodgman_clip`.  Python floats are modelled as exact rationals
(`ℚ`); fallible Python code (exceptions: `ValueError`, `IndexError`,
`ZeroDivisionError`) is modelled with `Except`.
-/

namespace App

/-- A 2-D point `(x, y)`, as the Python pair of floats. -/
abbrev Point : Type := ℚ × ℚ

/-- A segment `(p1, p2)`, as the Python pair of point pairs. -/
abbrev Segment : Type := Point × Point

/-- The clipping window `(Xmin, Ymin, Xmax, Ymax)`, the order in which
`parse_input_data` reads it and all clipping code unpacks it. -/
abbrev Window : Type := ℚ × ℚ × ℚ × ℚ

/-- The Python exceptions the core can raise: `ValueError(msg)` (raised
explicitly by `parse_input_data` and by failed `int`/`float` conversions),
`IndexError` (out-of-range list subscript) and `ZeroDivisionError`. -/
inductive PErr : Type
  | valueError (msg : String)
  | indexError
  | zeroDivisionError
deriving DecidableEq

/-- Python list subscription `l[i]`: non-negative indexes from the front,
negative indexes from the back, anything out of range is an `IndexError`
(modelled as `none`). -/
def pyIdx {α : Type} (l : List α) (i : ℤ) : Option α :=
  if 0 ≤ i then l.get? i.toNat
  else if 0 ≤ i + l.length then l.get? (i + l.length).toNat
  else none

/-- Python list subscription raising `IndexError` when out of range. -/
def pyGetE {α : Type} (l : List α) (i : ℤ) : Except PErr α :=
  match pyIdx l i with
  | some a => .ok a
  | none => .error .indexError

/-- The whitespace characters recognised by Python's `str.strip()` and
`str.split()` (ASCII ones; the inputs here are ASCII). -/
def pyIsSpace (c : Char) : Bool :=
  c = ' ' || c = '\t' || c = '\n' || c = '\r' || c = '\x0b' || c = '\x0c'

/-- Python `str.strip()` on a list of characters. -/
def pyStrip (cs : List Char) : List Char :=
  ((cs.dropWhile pyIsSpace).reverse.dropWhile pyIsSpace).reverse

/-- Helper for `pySplit`: `cur` is the (reversed) token being built. -/
def pySplitAux : List Char → List Char → List (List Char)
  | [], cur => if cur = [] then [] else [cur.reverse]
  | c :: rest, cur =>
    if pyIsSpace c then
      if cur = [] then pySplitAux rest [] else cur.reverse :: pySplitAux rest []
    else pySplitAux rest (c :: cur)

/-- Python `str.split()` (no separator): split on runs of whitespace,
discarding empty pieces. -/
def pySplit (cs : List Char) : List (List Char) :=
  pySplitAux cs []

/-- The numeric value of a list of decimal digit characters, `none` if any
character is not a digit.  (The empty list yields `some 0`; callers check
non-emptiness separately.) -/
def digitsVal (cs : List Char) : Option ℕ :=
  cs.foldl
    (fun acc c =>
      match acc with
      | none => none
      | some n => if c.isDigit then some (10 * n + (c.toNat - 48)) else none)
    (some 0)

/-- Python `int(s)`: optional sign then a non-empty digit string
(surrounding whitespace already stripped by the caller); models the
decimal-literal case, which is the only one the application's inputs use. -/
def pyInt (cs : List Char) : Option ℤ :=
  let (sgn, body) : ℤ × List Char :=
    match cs with
    | '-' :: rest => (-1, rest)
    | '+' :: rest => (1, rest)
    | _ => (1, cs)
  if body = [] then none
  else
    match digitsVal body with
    | some n => some (sgn * n)
    | none => none

/-- Python `float(s)` as an exact rational: optional sign, then
`digits`, `digits.digits`, `digits.` or `.digits`; models the plain
decimal-literal case, which is the only one the application's inputs use. -/
def pyFloat (cs : List Char) : Option ℚ :=
  let neg : Bool := match cs with | '-' :: _ => true | _ => false
  let body : List Char :=
    match cs with
    | '-' :: rest => rest
    | '+' :: rest => rest
    | _ => cs
  let signed : ℚ → ℚ := fun q => if neg then -q else q
  let ip := body.takeWhile (· ≠ '.')
  let rest := body.dropWhile (· ≠ '.')
  match rest with
  | [] =>
    match digitsVal ip with
    | some n => if ip = [] then none else some (signed n)
    | none => none
  | _ :: fp =>
    if ip = [] ∧ fp = [] then none
    else
      match digitsVal ip, digitsVal fp with
      | some n, some f => some (signed ((n : ℚ) + (f : ℚ) / ((10 : ℚ) ^ fp.length)))
      | _, _ => none

/-- `list(map(float, toks))`: first failing conversion aborts. -/
def pyFloats (toks : List (List Char)) : Option (List ℚ) :=
  toks.mapM pyFloat

/-- One iteration of the segment-reading loop of `parse_input_data`
(`for i in range(1, n + 1)` body, `src/app.py` lines 13–21). -/
def parseSegLine (data : List String) (i : ℤ) : Except PErr Segment := do
  let raw ← pyGetE data i
  let line := pyStrip raw.toList
  if line = [] then
    .error (.valueError s!"Missing segment data at line {i + 1}.")
  else
    match pyFloats (pySplit line) with
    | none => .error (.valueError "could not convert string to float")
    | some coords =>
      match coords with
      | [x1, y1, x2, y2] => .ok ((x1, y1), (x2, y2))
      | _ => .error (.valueError s!"Invalid segment data at line {i + 1}. Expected 4 coordinates.")

/-- The list `[1, 2, ..., n]` of Python's `range(1, n + 1)` (empty when
`n ≤ 0`). -/
def segRange (n : ℤ) : List ℤ :=
  (List.range n.toNat).map (fun k => Int.ofNat k + 1)

/-- `[(vertices[i], vertices[i+1]) for i in range(0, len(vertices), 2)]`:
group an (even-length) flat coordinate list into vertex pairs. -/
def pairUp : List ℚ → List Point
  | x :: y :: rest => (x, y) :: pairUp rest
  | _ => []

/-- The optional-polygon block of `parse_input_data` (`src/app.py` lines
30–41): the polygon stays `[]` unless a line `n + 2` exists, in which case
it must start with `P` and carry a non-empty, even-length list of
coordinates. -/
def parsePoly (data : List String) (n : ℤ) : Except PErr (List Point) :=
  if (data.length : ℤ) > n + 2 then
    match pyGetE data (n + 2) with
    | .error err => .error err
    | .ok pline =>
      match pline.toList with
      | 'P' :: prest =>
        match pyFloats (pySplit prest) with
        | none => .error (.valueError "could not convert string to float")
        | some vs =>
          if vs.length < 2 then
            .error (.valueError "Invalid polygon data. At least one vertex required.")
          else if vs.length % 2 ≠ 0 then
            .error (.valueError "Invalid polygon data. Coordinates must be in pairs.")
          else
            .ok (pairUp vs)
      | _ => .error (.valueError "Invalid data format. Expected polygon data starting with 'P'.")
  else
    .ok []

/-- `parse_input_data(data)` (`src/app.py` lines 7–42): returns the parsed
segments, the clipping window and the (possibly empty) polygon, or the
Python exception the function raises. -/
def parse_input_data (data : List String) :
    Except PErr (List Segment × Window × List Point) := do
  match data with
  | [] => .error (.valueError "No input data provided.")
  | line0 :: _ =>
    match pyInt (pyStrip line0.toList) with
    | none => .error (.valueError "invalid literal for int()")
    | some n => do
      let segments ← (segRange n).mapM (parseSegLine data)
      if (data.length : ℤ) < n + 2 then
        .error (.valueError "Missing clipping window data.")
      else do
        let wline ← pyGetE data (n + 1)
        match pyFloats (pySplit wline.toList) with
        | none => .error (.valueError "could not convert string to float")
        | some ws =>
          match ws with
          | [xmin, ymin, xmax, ymax] => do
            let polygon ← parsePoly data n
            .ok (segments, (xmin, ymin, xmax, ymax), polygon)
          | _ => .error (.valueError "Invalid clipping window data. Expected 4 coordinates.")

/-! ## Cohen–Sutherland segment clipping (`src/app.py` lines 44–121) -/

/-- `is_inside(point, clipping_window)` (lines 44–47): closed-interval
membership `Xmin <= x <= Xmax and Ymin <= y <= Ymax`. -/
def is_inside (point : Point) (clipping_window : Window) : Bool :=
  let (xmin, ymin, xmax, ymax) := clipping_window
  let (x, y) := point
  decide (xmin ≤ x) && decide (x ≤ xmax) && decide (ymin ≤ y) && decide (y ≤ ymax)

/-- `compute_t(boundary_value, start, delta)` (lines 55–62): the parameter
at which the infinite line crosses the boundary, `none` when the delta is
zero or the parameter falls outside `[0, 1]`. -/
def compute_t (boundary_value start delta : ℚ) : Option ℚ :=
  if delta = 0 then none
  else
    let t := (boundary_value - start) / delta
    if 0 ≤ t ∧ t ≤ 1 then some t else none

/-- The retained crossing parameters `t_values` before sorting (lines
64–96), in the source's evaluation order left, right, bottom, top.  (In
the source each candidate is appended under an `is_inside` test whose two
branches perform the same append, so the test has no effect.) -/
def t_list (segment : Segment) (clipping_window : Window) : List ℚ :=
  let ((x1, y1), (x2, y2)) := segment
  let (xmin, ymin, xmax, ymax) := clipping_window
  [compute_t xmin x1 (x2 - x1), compute_t xmax x1 (x2 - x1),
   compute_t ymin y1 (y2 - y1), compute_t ymax y1 (y2 - y1)].filterMap id

/-- `t_values = sorted(t_values)` (line 98). -/
def sortedT (segment : Segment) (clipping_window : Window) : List ℚ :=
  List.insertionSort (· ≤ ·) (t_list segment clipping_window)

/-- The point `(x1 + t*(x2 - x1), y1 + t*(y2 - y1))` on the parametric
line of the segment (lines 104–105, 109–110, 115–118). -/
def pAt (segment : Segment) (t : ℚ) : Point :=
  (segment.1.1 + t * (segment.2.1 - segment.1.1),
   segment.1.2 + t * (segment.2.2 - segment.1.2))

/-- `cohen_sutherland_clip(segment, clipping_window)` (lines 49–121):
`some` of the clipped segment, `none` for "fully outside"; the outer
`Except` carries the `IndexError` Python would raise if `t_values[0]` or
`t_values[-1]` were taken from an empty list. -/
def cohen_sutherland_clip (segment : Segment) (clipping_window : Window) :
    Except PErr (Option Segment) :=
  let tvs := sortedT segment clipping_window
  if is_inside segment.1 clipping_window && is_inside segment.2 clipping_window then
    .ok (some segment)
  else if is_inside segment.1 clipping_window then
    match tvs.head? with
    | some t => .ok (some (segment.1, pAt segment t))
    | none => .error .indexError
  else if is_inside segment.2 clipping_window then
    match tvs.getLast? with
    | some t => .ok (some (pAt segment t, segment.2))
    | none => .error .indexError
  else
    match tvs with
    | t1 :: t2 :: _ => .ok (some (pAt segment t1, pAt segment t2))
    | _ => .ok none

/-! ## Sutherland–Hodgman polygon clipping (`src/app.py` lines 123–173) -/

/-- The four clip boundaries, in the fixed processing order. -/
inductive Edge : Type
  | left
  | bottom
  | right
  | top
deriving DecidableEq

/-- The `boundary` value assigned per edge (lines 132, 137, 142, 147). -/
def eBoundary (clipping_window : Window) : Edge → ℚ
  | .left => clipping_window.1
  | .bottom => clipping_window.2.1
  | .right => clipping_window.2.2.1
  | .top => clipping_window.2.2.2

/-- The coordinate selected by `axis` (0 or 1) per edge (lines 133, 138,
143, 148). -/
def eAxis : Edge → Point → ℚ
  | .left, p => p.1
  | .bottom, p => p.2
  | .right, p => p.1
  | .top, p => p.2

/-- The per-edge accept test (lines 130–146): `>=` against the min
boundaries, `<=` against the max boundaries. -/
def eAccept (clipping_window : Window) : Edge → Point → Bool
  | .left, p => decide (p.1 ≥ clipping_window.1)
  | .bottom, p => decide (p.2 ≥ clipping_window.2.1)
  | .right, p => decide (p.1 ≤ clipping_window.2.2.1)
  | .top, p => decide (p.2 ≤ clipping_window.2.2.2)

/-- The interpolated boundary crossing of the edge `p0 → p1` (lines
155–156, 164–165). -/
def interp (p0 p1 : Point) (t : ℚ) : Point :=
  (p0.1 + t * (p1.1 - p0.1), p0.2 + t * (p1.2 - p0.2))

/-- One iteration of the `for p1 in polygon` loop of `clip_edge` (lines
128–167).  The source computes `t = (boundary - p0[axis]) / (p1[axis] -
p0[axis])` before testing the divisor for zero, so a zero divisor raises
`ZeroDivisionError` (the `continue` guard after it is unreachable). -/
def clipEdgeStep (clipping_window : Window) (e : Edge) (p0 p1 : Point)
    (acc : List Point) : Except PErr (List Point) :=
  if eAccept clipping_window e p1 then
    if eAccept clipping_window e p0 then
      .ok (acc ++ [p1])
    else
      let d := eAxis e p1 - eAxis e p0
      if d = 0 then .error .zeroDivisionError
      else .ok (acc ++ [interp p0 p1 ((eBoundary clipping_window e - eAxis e p0) / d), p1])
  else
    if eAccept clipping_window e p0 then
      let d := eAxis e p1 - eAxis e p0
      if d = 0 then .error .zeroDivisionError
      else .ok (acc ++ [interp p0 p1 ((eBoundary clipping_window e - eAxis e p0) / d)])
    else
      .ok acc

/-- The `for p1 in polygon` loop of `clip_edge`, threading `p0 = p1` at
the end of each iteration (lines 128–167). -/
def clipEdgeLoop (clipping_window : Window) (e : Edge) :
    Point → List Point → List Point → Except PErr (List Point)
  | _, [], acc => .ok acc
  | p0, p1 :: rest, acc =>
    match clipEdgeStep clipping_window e p0 p1 acc with
    | .error err => .error err
    | .ok acc' => clipEdgeLoop clipping_window e p1 rest acc'

/-- `clip_edge(polygon, edge)` (lines 124–168): `p0 = polygon[-1]` raises
`IndexError` on an empty polygon. -/
def clip_edge (clipping_window : Window) (polygon : List Point) (e : Edge) :
    Except PErr (List Point) :=
  match polygon.getLast? with
  | none => .error .indexError
  | some plast => clipEdgeLoop clipping_window e plast polygon []

/-- `sutherland_hodgman_clip(polygon, clipping_window)` (lines 123–173):
clip against left, bottom, right, top in that order. -/
def sutherland_hodgman_clip (polygon : List Point) (clipping_window : Window) :
    Except PErr (List Point) :=
  match clip_edge clipping_window polygon .left with
  | .error err => .error err
  | .ok q1 =>
    match clip_edge clipping_window q1 .bottom with
    | .error err => .error err
    | .ok q2 =>
      match clip_edge clipping_window q2 .right with
      | .error err => .error err
      | .ok q3 => clip_edge clipping_window q3 .top

end App

/-! Decidable equality for `Except` results, so concrete runs of the
embedded functions can be checked by `decide`. -/

instance {e a : Type} [DecidableEq e] [DecidableEq a] : DecidableEq (Except e a) := fun x y =>
  match x, y with
  | .ok u, .ok v =>
    if h : u = v then isTrue (by rw [h]) else isFalse (fun hc => by cases hc; exact h rfl)
  | .error u, .error v =>
    if h : u = v then isTrue (by rw [h]) else isFalse (fun hc => by cases hc; exact h rfl)
  | .ok _, .error _ => isFalse (fun hc => by cases hc)
  | .error _, .ok _ => isFalse (fun hc => by cases hc)

instance : DecidableEq (App.Window × List App.Point) := inferInstance

instance : DecidableEq (List App.Segment × App.Window × List App.Point) := inferInstance

namespace App

/-! ## Lemmas about the retained crossing parameters -/

/-- What a successful `compute_t` returns. -/
theorem compute_t_eq_some {b c d t : ℚ} (h : compute_t b c d = some t) :
    d ≠ 0 ∧ t = (b - c) / d ∧ 0 ≤ t ∧ t ≤ 1 := by
  simp only [compute_t] at h
  split_ifs at h with hd hr
  · cases h
    exact ⟨hd, rfl, hr⟩

/-- `compute_t` succeeds on every in-range crossing. -/
theorem compute_t_eq_some_of {b c d : ℚ} (hd : d ≠ 0) (h0 : 0 ≤ (b - c) / d)
    (h1 : (b - c) / d ≤ 1) : compute_t b c d = some ((b - c) / d) := by
  unfold compute_t
  rw [if_neg hd, if_pos ⟨h0, h1⟩]

/-- Every retained parameter lies in `[0, 1]`. -/
theorem t_list_mem_unit {s : Segment} {w : Window} {t : ℚ} (h : t ∈ t_list s w) :
    0 ≤ t ∧ t ≤ 1 := by
  obtain ⟨⟨x1, y1⟩, ⟨x2, y2⟩⟩ := s
  obtain ⟨xmin, ymin, xmax, ymax⟩ := w
  simp only [t_list, List.mem_filterMap, List.mem_cons, List.not_mem_nil, or_false,
    id_eq] at h
  obtain ⟨o, ho, rfl⟩ := h
  rcases ho with h | h | h | h <;>
    exact ((compute_t_eq_some h.symm).2.2)

/-- The left-boundary crossing is retained when it lies in `[0, 1]`. -/
theorem mem_t_list_xmin {x1 y1 x2 y2 xmin ymin xmax ymax : ℚ} (hd : x2 - x1 ≠ 0)
    (h0 : 0 ≤ (xmin - x1) / (x2 - x1)) (h1 : (xmin - x1) / (x2 - x1) ≤ 1) :
    (xmin - x1) / (x2 - x1) ∈ t_list ((x1, y1), (x2, y2)) (xmin, ymin, xmax, ymax) := by
  simp only [t_list, List.mem_filterMap, List.mem_cons, List.not_mem_nil, or_false, id_eq]
  exact ⟨_, Or.inl (compute_t_eq_some_of hd h0 h1).symm, rfl⟩

/-- The right-boundary crossing is retained when it lies in `[0, 1]`. -/
theorem mem_t_list_xmax {x1 y1 x2 y2 xmin ymin xmax ymax : ℚ} (hd : x2 - x1 ≠ 0)
    (h0 : 0 ≤ (xmax - x1) / (x2 - x1)) (h1 : (xmax - x1) / (x2 - x1) ≤ 1) :
    (xmax - x1) / (x2 - x1) ∈ t_list ((x1, y1), (x2, y2)) (xmin, ymin, xmax, ymax) := by
  simp only [t_list, List.mem_filterMap, List.mem_cons, List.not_mem_nil, or_false, id_eq]
  exact ⟨_, Or.inr (Or.inl (compute_t_eq_some_of hd h0 h1).symm), rfl⟩

/-- The bottom-boundary crossing is retained when it lies in `[0, 1]`. -/
theorem mem_t_list_ymin {x1 y1 x2 y2 xmin ymin xmax ymax : ℚ} (hd : y2 - y1 ≠ 0)
    (h0 : 0 ≤ (ymin - y1) / (y2 - y1)) (h1 : (ymin - y1) / (y2 - y1) ≤ 1) :
    (ymin - y1) / (y2 - y1) ∈ t_list ((x1, y1), (x2, y2)) (xmin, ymin, xmax, ymax) := by
  simp only [t_list, List.mem_filterMap, List.mem_cons, List.not_mem_nil, or_false, id_eq]
  exact ⟨_, Or.inr (Or.inr (Or.inl (compute_t_eq_some_of hd h0 h1).symm)), rfl⟩

/-- The top-boundary crossing is retained when it lies in `[0, 1]`. -/
theorem mem_t_list_ymax {x1 y1 x2 y2 xmin ymin xmax ymax : ℚ} (hd : y2 - y1 ≠ 0)
    (h0 : 0 ≤ (ymax - y1) / (y2 - y1)) (h1 : (ymax - y1) / (y2 - y1) ≤ 1) :
    (ymax - y1) / (y2 - y1) ∈ t_list ((x1, y1), (x2, y2)) (xmin, ymin, xmax, ymax) := by
  simp only [t_list, List.mem_filterMap, List.mem_cons, List.not_mem_nil, or_false, id_eq]
  exact ⟨_, Or.inr (Or.inr (Or.inr (compute_t_eq_some_of hd h0 h1).symm)), rfl⟩

/-- Membership transfers between the sorted and the unsorted parameter lists. -/
theorem mem_sortedT {s : Segment} {w : Window} {t : ℚ} :
    t ∈ sortedT s w ↔ t ∈ t_list s w :=
  (List.perm_insertionSort (· ≤ ·) (t_list s w)).mem_iff

/-- The sorted parameter list is sorted. -/
theorem sortedT_sorted (s : Segment) (w : Window) :
    List.Sorted (· ≤ ·) (sortedT s w) :=
  List.sorted_insertionSort (· ≤ ·) (t_list s w)

/-- A `getLast?` element is a member. -/
theorem getLast?_mem_list {α : Type} : ∀ {l : List α} {a : α}, l.getLast? = some a → a ∈ l
  | [], _, h => by cases h
  | [_], _, h => by cases h; exact List.mem_singleton_self _
  | _ :: b :: l, a, h => by
    rw [List.getLast?_cons_cons] at h
    exact List.mem_cons_of_mem _ (getLast?_mem_list h)

/-- In a `≤`-sorted list every element is at most the last one. -/
theorem sorted_le_getLast? : ∀ {l : List ℚ}, List.Sorted (· ≤ ·) l →
    ∀ {t tL : ℚ}, t ∈ l → l.getLast? = some tL → t ≤ tL
  | [], _, _, _, ht, _ => absurd ht (List.not_mem_nil _)
  | [a], _, t, tL, ht, hL => by
    cases hL
    rw [List.mem_singleton] at ht
    exact le_of_eq ht
  | a :: b :: l, hs, t, tL, ht, hL => by
    rw [List.getLast?_cons_cons] at hL
    rcases List.mem_cons.mp ht with rfl | ht
    · exact le_trans ((List.pairwise_cons.mp hs).1 tL (getLast?_mem_list hL))
        (le_refl tL)
    · exact sorted_le_getLast? (List.pairwise_cons.mp hs).2 ht hL

/-- The head of the sorted parameter list bounds every retained parameter
from below. -/
theorem sortedT_head_min {s : Segment} {w : Window} {t0 t : ℚ}
    (hh : (sortedT s w).head? = some t0) (ht : t ∈ t_list s w) : t0 ≤ t := by
  have hmem : t ∈ sortedT s w := mem_sortedT.mpr ht
  have hs := sortedT_sorted s w
  cases hl : sortedT s w with
  | nil => rw [hl] at hmem; exact absurd hmem (List.not_mem_nil _)
  | cons a l =>
    rw [hl] at hh hmem hs
    cases hh
    rcases List.mem_cons.mp hmem with rfl | hmem
    · exact le_refl t
    · exact (List.pairwise_cons.mp hs).1 t hmem

/-- The last element of the sorted parameter list bounds every retained
parameter from above. -/
theorem sortedT_getLast_max {s : Segment} {w : Window} {tL t : ℚ}
    (hh : (sortedT s w).getLast? = some tL) (ht : t ∈ t_list s w) : t ≤ tL :=
  sorted_le_getLast? (sortedT_sorted s w) (mem_sortedT.mpr ht) hh

/-! ## Intermediate-value facts for an affine coordinate -/

/-- If the coordinate starts at or above `b` but is below `b` at `t0 ≥ 0`,
the line crosses `b` at a parameter in `[0, t0)`. -/
theorem ivt_min {c b d t0 : ℚ} (hc : b ≤ c) (ht0 : 0 ≤ t0) (h : c + t0 * d < b) :
    d ≠ 0 ∧ 0 ≤ (b - c) / d ∧ (b - c) / d < t0 := by
  have hd : d < 0 := by nlinarith
  refine ⟨ne_of_lt hd, ?_, ?_⟩
  · exact div_nonneg_iff.mpr (Or.inr ⟨by linarith, le_of_lt hd⟩)
  · rw [div_lt_iff_of_neg hd]
    linarith

/-- If the coordinate starts at or below `B` but is above `B` at `t0 ≥ 0`,
the line crosses `B` at a parameter in `[0, t0)`. -/
theorem ivt_max {c B d t0 : ℚ} (hc : c ≤ B) (ht0 : 0 ≤ t0) (h : B < c + t0 * d) :
    d ≠ 0 ∧ 0 ≤ (B - c) / d ∧ (B - c) / d < t0 := by
  have hd : 0 < d := by nlinarith
  refine ⟨ne_of_gt hd, ?_, ?_⟩
  · exact div_nonneg (by linarith) (le_of_lt hd)
  · rw [div_lt_iff₀ hd]
    linarith

/-- If the coordinate ends (`t = 1`) at or above `b` but is below `b` at
`t0 ≤ 1`, the line crosses `b` at a parameter in `(t0, 1]`. -/
theorem ivt_min' {c b d t0 : ℚ} (hc : b ≤ c + d) (ht0 : t0 ≤ 1) (h : c + t0 * d < b) :
    d ≠ 0 ∧ t0 < (b - c) / d ∧ (b - c) / d ≤ 1 := by
  have hd : 0 < d := by nlinarith
  refine ⟨ne_of_gt hd, ?_, ?_⟩
  · rw [lt_div_iff₀ hd]
    linarith
  · rw [div_le_one hd]
    linarith

/-- If the coordinate ends (`t = 1`) at or below `B` but is above `B` at
`t0 ≤ 1`, the line crosses `B` at a parameter in `(t0, 1]`. -/
theorem ivt_max' {c B d t0 : ℚ} (hc : c + d ≤ B) (ht0 : t0 ≤ 1) (h : B < c + t0 * d) :
    d ≠ 0 ∧ t0 < (B - c) / d ∧ (B - c) / d ≤ 1 := by
  have hd : d < 0 := by nlinarith
  refine ⟨ne_of_lt hd, ?_, ?_⟩
  · rw [lt_div_iff_of_neg hd]
    linarith
  · rw [div_le_iff_of_neg hd]
    linarith

/-- Unfolding of the closed inside test. -/
theorem is_inside_iff {x y xmin ymin xmax ymax : ℚ} :
    is_inside (x, y) (xmin, ymin, xmax, ymax) = true ↔
      xmin ≤ x ∧ x ≤ xmax ∧ ymin ≤ y ∧ y ≤ ymax := by
  simp [is_inside, and_assoc]

/-! ## Branch equations of `cohen_sutherland_clip` -/

/-- Both endpoints inside: the segment is returned unchanged. -/
theorem csClip_both {s : Segment} {w : Window} (h1 : is_inside s.1 w = true)
    (h2 : is_inside s.2 w = true) :
    cohen_sutherland_clip s w = .ok (some s) := by
  simp [cohen_sutherland_clip, h1, h2]

/-- Only the first endpoint inside: the second is replaced using
`t_values[0]`. -/
theorem csClip_first {s : Segment} {w : Window} (h1 : is_inside s.1 w = true)
    (h2 : is_inside s.2 w = false) :
    cohen_sutherland_clip s w =
      (match (sortedT s w).head? with
       | some t => .ok (some (s.1, pAt s t))
       | none => .error .indexError) := by
  simp [cohen_sutherland_clip, h1, h2]

/-- Only the second endpoint inside: the first is replaced using
`t_values[-1]`. -/
theorem csClip_second {s : Segment} {w : Window} (h1 : is_inside s.1 w = false)
    (h2 : is_inside s.2 w = true) :
    cohen_sutherland_clip s w =
      (match (sortedT s w).getLast? with
       | some t => .ok (some (pAt s t, s.2))
       | none => .error .indexError) := by
  simp [cohen_sutherland_clip, h1, h2]

/-- Neither endpoint inside: the first two sorted parameters are used when
they exist, else the segment is rejected. -/
theorem csClip_neither {s : Segment} {w : Window} (h1 : is_inside s.1 w = false)
    (h2 : is_inside s.2 w = false) :
    cohen_sutherland_clip s w =
      (match sortedT s w with
       | t1 :: t2 :: _ => .ok (some (pAt s t1, pAt s t2))
       | _ => .ok none) := by
  simp [cohen_sutherland_clip, h1, h2]

/-! ## The crossing point at the extremal retained parameter is inside -/

/-- When the first endpoint is inside, the point at the smallest retained
parameter satisfies the inside test. -/
theorem head_point_inside {s : Segment} {w : Window} {t0 : ℚ}
    (h1 : is_inside s.1 w = true) (hh : (sortedT s w).head? = some t0) :
    is_inside (pAt s t0) w = true := by
  obtain ⟨⟨x1, y1⟩, ⟨x2, y2⟩⟩ := s
  obtain ⟨xmin, ymin, xmax, ymax⟩ := w
  have ht0mem : t0 ∈ t_list ((x1, y1), (x2, y2)) (xmin, ymin, xmax, ymax) := by
    apply mem_sortedT.mp
    cases hl : sortedT ((x1, y1), (x2, y2)) (xmin, ymin, xmax, ymax) with
    | nil => rw [hl] at hh; cases hh
    | cons a l => rw [hl] at hh; cases hh; exact List.mem_cons_self _ _
  have hunit := t_list_mem_unit ht0mem
  obtain ⟨hx1min, hx1max, hy1min, hy1max⟩ := is_inside_iff.mp h1
  show is_inside (x1 + t0 * (x2 - x1), y1 + t0 * (y2 - y1)) (xmin, ymin, xmax, ymax) = true
  rw [is_inside_iff]
  refine ⟨?_, ?_, ?_, ?_⟩
  · by_contra hcon
    push_neg at hcon
    obtain ⟨hd, h0, hlt⟩ := ivt_min hx1min hunit.1 hcon
    have hmem : (xmin - x1) / (x2 - x1) ∈
        t_list ((x1, y1), (x2, y2)) (xmin, ymin, xmax, ymax) :=
      mem_t_list_xmin hd h0 (le_trans (le_of_lt hlt) hunit.2)
    have := sortedT_head_min hh hmem
    linarith
  · by_contra hcon
    push_neg at hcon
    obtain ⟨hd, h0, hlt⟩ := ivt_max hx1max hunit.1 hcon
    have hmem : (xmax - x1) / (x2 - x1) ∈
        t_list ((x1, y1), (x2, y2)) (xmin, ymin, xmax, ymax) :=
      mem_t_list_xmax hd h0 (le_trans (le_of_lt hlt) hunit.2)
    have := sortedT_head_min hh hmem
    linarith
  · by_contra hcon
    push_neg at hcon
    obtain ⟨hd, h0, hlt⟩ := ivt_min hy1min hunit.1 hcon
    have hmem : (ymin - y1) / (y2 - y1) ∈
        t_list ((x1, y1), (x2, y2)) (xmin, ymin, xmax, ymax) :=
      mem_t_list_ymin hd h0 (le_trans (le_of_lt hlt) hunit.2)
    have := sortedT_head_min hh hmem
    linarith
  · by_contra hcon
    push_neg at hcon
    obtain ⟨hd, h0, hlt⟩ := ivt_max hy1max hunit.1 hcon
    have hmem : (ymax - y1) / (y2 - y1) ∈
        t_list ((x1, y1), (x2, y2)) (xmin, ymin, xmax, ymax) :=
      mem_t_list_ymax hd h0 (le_trans (le_of_lt hlt) hunit.2)
    have := sortedT_head_min hh hmem
    linarith

/-- When the second endpoint is inside, the point at the largest retained
parameter satisfies the inside test. -/
theorem last_point_inside {s : Segment} {w : Window} {tL : ℚ}
    (h2 : is_inside s.2 w = true) (hh : (sortedT s w).getLast? = some tL) :
    is_inside (pAt s tL) w = true := by
  obtain ⟨⟨x1, y1⟩, ⟨x2, y2⟩⟩ := s
  obtain ⟨xmin, ymin, xmax, ymax⟩ := w
  have htLmem : tL ∈ t_list ((x1, y1), (x2, y2)) (xmin, ymin, xmax, ymax) :=
    mem_sortedT.mp (getLast?_mem_list hh)
  have hunit := t_list_mem_unit htLmem
  obtain ⟨hx2min, hx2max, hy2min, hy2max⟩ := is_inside_iff.mp h2
  show is_inside (x1 + tL * (x2 - x1), y1 + tL * (y2 - y1)) (xmin, ymin, xmax, ymax) = true
  rw [is_inside_iff]
  refine ⟨?_, ?_, ?_, ?_⟩
  · by_contra hcon
    push_neg at hcon
    obtain ⟨hd, hlt, hle1⟩ := ivt_min' (by linarith : xmin ≤ x1 + (x2 - x1)) hunit.2 hcon
    have hmem : (xmin - x1) / (x2 - x1) ∈
        t_list ((x1, y1), (x2, y2)) (xmin, ymin, xmax, ymax) :=
      mem_t_list_xmin hd (le_of_lt (lt_of_le_of_lt hunit.1 hlt)) hle1
    have := sortedT_getLast_max hh hmem
    linarith
  · by_contra hcon
    push_neg at hcon
    obtain ⟨hd, hlt, hle1⟩ := ivt_max' (by linarith : x1 + (x2 - x1) ≤ xmax) hunit.2 hcon
    have hmem : (xmax - x1) / (x2 - x1) ∈
        t_list ((x1, y1), (x2, y2)) (xmin, ymin, xmax, ymax) :=
      mem_t_list_xmax hd (le_of_lt (lt_of_le_of_lt hunit.1 hlt)) hle1
    have := sortedT_getLast_max hh hmem
    linarith
  · by_contra hcon
    push_neg at hcon
    obtain ⟨hd, hlt, hle1⟩ := ivt_min' (by linarith : ymin ≤ y1 + (y2 - y1)) hunit.2 hcon
    have hmem : (ymin - y1) / (y2 - y1) ∈
        t_list ((x1, y1), (x2, y2)) (xmin, ymin, xmax, ymax) :=
      mem_t_list_ymin hd (le_of_lt (lt_of_le_of_lt hunit.1 hlt)) hle1
    have := sortedT_getLast_max hh hmem
    linarith
  · by_contra hcon
    push_neg at hcon
    obtain ⟨hd, hlt, hle1⟩ := ivt_max' (by linarith : y1 + (y2 - y1) ≤ ymax) hunit.2 hcon
    have hmem : (ymax - y1) / (y2 - y1) ∈
        t_list ((x1, y1), (x2, y2)) (xmin, ymin, xmax, ymax) :=
      mem_t_list_ymax hd (le_of_lt (lt_of_le_of_lt hunit.1 hlt)) hle1
    have := sortedT_getLast_max hh hmem
    linarith

/-- Whenever the clipper returns a segment and at least one input endpoint
is inside the window, both result endpoints satisfy the inside test. -/
theorem csClip_result_inside {s : Segment} {w : Window} {r : Segment}
    (hclip : cohen_sutherland_clip s w = .ok (some r))
    (hor : is_inside s.1 w = true ∨ is_inside s.2 w = true) :
    is_inside r.1 w = true ∧ is_inside r.2 w = true := by
  by_cases h1 : is_inside s.1 w = true
  · by_cases h2 : is_inside s.2 w = true
    · rw [csClip_both h1 h2] at hclip
      cases hclip
      exact ⟨h1, h2⟩
    · have h2' : is_inside s.2 w = false := by
        cases hv : is_inside s.2 w
        · rfl
        · exact absurd hv h2
      rw [csClip_first h1 h2'] at hclip
      cases hh : (sortedT s w).head? with
      | none => rw [hh] at hclip; cases hclip
      | some t0 =>
        rw [hh] at hclip
        cases hclip
        exact ⟨h1, head_point_inside h1 hh⟩
  · have h1' : is_inside s.1 w = false := by
      cases hv : is_inside s.1 w
      · rfl
      · exact absurd hv h1
    by_cases h2 : is_inside s.2 w = true
    · rw [csClip_second h1' h2] at hclip
      cases hh : (sortedT s w).getLast? with
      | none => rw [hh] at hclip; cases hclip
      | some tL =>
        rw [hh] at hclip
        cases hclip
        exact ⟨last_point_inside h2 hh, h2⟩
    · rcases hor with h | h
      · exact absurd h h1
      · exact absurd h h2

/-! ## Claim C1 -/

/-- C1, counterexample: for the segment `(-2,-1)–(12,11)` and the
well-formed window `(0,0,10,10)`, `cohen_sutherland_clip` returns a
segment whose first endpoint `(-5/6, 0)` fails the inside test, refuting
the claim that the result always lies within the closed window. -/
theorem C1_counterexample :
    cohen_sutherland_clip (((-2 : ℚ), -1), ((12 : ℚ), 11)) ((0 : ℚ), 0, 10, 10)
        = .ok (some (((-5/6 : ℚ), 0), ((0 : ℚ), 5/7)))
      ∧ is_inside ((-5/6 : ℚ), 0) ((0 : ℚ), 0, 10, 10) = false
      ∧ (0 : ℚ) ≤ 10 ∧ (0 : ℚ) ≤ 10 := by
  refine ⟨?_, ?_, by norm_num, by norm_num⟩
  · norm_num [cohen_sutherland_clip, sortedT, t_list, compute_t, is_inside, pAt,
      List.insertionSort, List.orderedInsert]
  · norm_num [is_inside]

/-- C1 (amended): for every segment and well-formed window, whenever
`cohen_sutherland_clip` returns a segment and at least one endpoint of the
input is inside the window, both endpoints of the result satisfy the
closed inside test `Xmin ≤ x ≤ Xmax`, `Ymin ≤ y ≤ Ymax`.  (The original
claim fails exactly in the pass-through case where neither input endpoint
is inside.) -/
theorem C1_clip_segment_result_inside (s : Segment) (w : Window) (r : Segment)
    (hwx : w.1 ≤ w.2.2.1) (hwy : w.2.1 ≤ w.2.2.2)
    (hclip : cohen_sutherland_clip s w = .ok (some r))
    (hor : is_inside s.1 w = true ∨ is_inside s.2 w = true) :
    is_inside r.1 w = true ∧ is_inside r.2 w = true :=
  csClip_result_inside hclip hor

/-- C1, witness: the amended theorem applied to the segment
`(2,2)–(15,2)` (first endpoint inside) and the window `(0,0,10,10)`,
whose clipped result is `(2,2)–(10,2)`. -/
theorem C1_witness :
    is_inside ((2 : ℚ), 2) ((0 : ℚ), 0, 10, 10) = true
      ∧ is_inside ((10 : ℚ), 2) ((0 : ℚ), 0, 10, 10) = true :=
  C1_clip_segment_result_inside (((2 : ℚ), 2), ((15 : ℚ), 2)) ((0 : ℚ), 0, 10, 10)
    (((2 : ℚ), 2), ((10 : ℚ), 2)) (by norm_num) (by norm_num)
    (by norm_num [cohen_sutherland_clip, sortedT, t_list, compute_t, is_inside, pAt,
      List.insertionSort, List.orderedInsert])
    (Or.inl (by decide))

/-! ## Claim C2 -/

/-- C2, counterexample: for the segment `(-1,-1)–(11,11)` and the window
`(0,0,10,10)`, neither endpoint is inside and four parameters are
retained (sorted `[1/12, 1/12, 11/12, 11/12]`), yet the result is the
degenerate segment `(0,0)–(0,0)`: its second endpoint is not the crossing
point `(10,10)` at the largest retained parameter `11/12`, refuting the
claim. -/
theorem C2_counterexample :
    is_inside ((-1 : ℚ), -1) ((0 : ℚ), 0, 10, 10) = false
      ∧ is_inside ((11 : ℚ), 11) ((0 : ℚ), 0, 10, 10) = false
      ∧ sortedT (((-1 : ℚ), -1), ((11 : ℚ), 11)) ((0 : ℚ), 0, 10, 10)
          = [1/12, 1/12, 11/12, 11/12]
      ∧ cohen_sutherland_clip (((-1 : ℚ), -1), ((11 : ℚ), 11)) ((0 : ℚ), 0, 10, 10)
          = .ok (some (((0 : ℚ), 0), ((0 : ℚ), 0)))
      ∧ pAt (((-1 : ℚ), -1), ((11 : ℚ), 11)) (11/12) = ((10 : ℚ), 10)
      ∧ ((0 : ℚ), (0 : ℚ)) ≠ ((10 : ℚ), (10 : ℚ)) := by
  refine ⟨by decide, by decide, ?_, ?_, ?_, by decide⟩
  · norm_num [sortedT, t_list, compute_t, List.insertionSort, List.orderedInsert]
  · norm_num [cohen_sutherland_clip, sortedT, t_list, compute_t, is_inside, pAt,
      List.insertionSort, List.orderedInsert]
  · norm_num [pAt]

/-- C2 (amended): for every segment with neither endpoint inside the
window and at least 2 retained crossing parameters, the result is the
segment whose endpoints are the crossing points at the smallest and the
*second smallest* retained parameters (`t_values[0]` and `t_values[1]`
after ascending sort), not the largest. -/
theorem C2_clip_segment_pass_through (s : Segment) (w : Window) (t1 t2 : ℚ)
    (rest : List ℚ) (h1 : is_inside s.1 w = false) (h2 : is_inside s.2 w = false)
    (hsort : sortedT s w = t1 :: t2 :: rest) :
    cohen_sutherland_clip s w = .ok (some (pAt s t1, pAt s t2)) ∧ t1 ≤ t2 := by
  constructor
  · rw [csClip_neither h1 h2, hsort]
  · have hs := sortedT_sorted s w
    rw [hsort] at hs
    exact (List.pairwise_cons.mp hs).1 t2 (List.mem_cons_self _ _)

/-- C2, witness: the amended theorem applied to the segment
`(-1,5)–(11,5)` crossing the window `(0,0,10,10)` with retained
parameters `[1/12, 11/12]`. -/
theorem C2_witness :
    cohen_sutherland_clip (((-1 : ℚ), 5), ((11 : ℚ), 5)) ((0 : ℚ), 0, 10, 10)
        = .ok (some (pAt (((-1 : ℚ), 5), ((11 : ℚ), 5)) (1/12),
            pAt (((-1 : ℚ), 5), ((11 : ℚ), 5)) (11/12)))
      ∧ (1/12 : ℚ) ≤ 11/12 :=
  C2_clip_segment_pass_through (((-1 : ℚ), 5), ((11 : ℚ), 5)) ((0 : ℚ), 0, 10, 10)
    (1/12) (11/12) [] (by decide) (by decide)
    (by norm_num [sortedT, t_list, compute_t, List.insertionSort, List.orderedInsert])

/-! ## Lemmas about `clip_edge` -/

/-- A predicate on points closed under interpolation with `t ∈ [0, 1]`. -/
def ConvexClosed (P : Point → Prop) : Prop :=
  ∀ p q : Point, ∀ t : ℚ, 0 ≤ t → t ≤ 1 → P p → P q → P (interp p q t)

/-- When the coordinate `a0` is on one side of `b` and `a1` on the other
(in the weak/strict split the accept tests produce), the crossing
parameter is well defined and lies in `[0, 1]`. -/
theorem cross_unit {b a0 a1 : ℚ}
    (h : (b ≤ a1 ∧ ¬ b ≤ a0) ∨ (¬ b ≤ a1 ∧ b ≤ a0) ∨ (a1 ≤ b ∧ ¬ a0 ≤ b)
      ∨ (¬ a1 ≤ b ∧ a0 ≤ b)) :
    a1 - a0 ≠ 0 ∧ 0 ≤ (b - a0) / (a1 - a0) ∧ (b - a0) / (a1 - a0) ≤ 1 := by
  rcases h with ⟨h1, h0⟩ | ⟨h1, h0⟩ | ⟨h1, h0⟩ | ⟨h1, h0⟩
  · push_neg at h0
    exact ⟨by intro hc; nlinarith, div_nonneg (by linarith) (by linarith),
      (div_le_one (by linarith)).mpr (by linarith)⟩
  · push_neg at h1
    exact ⟨by intro hc; nlinarith, div_nonneg_iff.mpr (Or.inr ⟨by linarith, by linarith⟩),
      (div_le_iff_of_neg (by linarith)).mpr (by linarith)⟩
  · push_neg at h0
    exact ⟨by intro hc; nlinarith, div_nonneg_iff.mpr (Or.inr ⟨by linarith, by linarith⟩),
      (div_le_iff_of_neg (by linarith)).mpr (by linarith)⟩
  · push_neg at h1
    exact ⟨by intro hc; nlinarith, div_nonneg (by linarith) (by linarith),
      (div_le_one (by linarith)).mpr (by linarith)⟩

/-- Claim C9's core: when the two vertices disagree on the accept test of
an edge, their coordinates along that edge's axis differ and the
interpolation parameter lies in `[0, 1]`. -/
theorem eAccept_ne_cross {w : Window} {e : Edge} {p0 p1 : Point}
    (hne : eAccept w e p1 ≠ eAccept w e p0) :
    eAxis e p1 - eAxis e p0 ≠ 0
      ∧ 0 ≤ (eBoundary w e - eAxis e p0) / (eAxis e p1 - eAxis e p0)
      ∧ (eBoundary w e - eAxis e p0) / (eAxis e p1 - eAxis e p0) ≤ 1 := by
  cases e with
  | left =>
    simp only [eAccept, eAxis, eBoundary, ge_iff_le, ne_eq, decide_eq_decide] at hne ⊢
    by_cases hA : w.1 ≤ p1.1 <;> by_cases hB : w.1 ≤ p0.1
    · exact absurd (iff_of_true hA hB) hne
    · exact cross_unit (Or.inl ⟨hA, hB⟩)
    · exact cross_unit (Or.inr (Or.inl ⟨hA, hB⟩))
    · exact absurd (iff_of_false hA hB) hne
  | bottom =>
    simp only [eAccept, eAxis, eBoundary, ge_iff_le, ne_eq, decide_eq_decide] at hne ⊢
    by_cases hA : w.2.1 ≤ p1.2 <;> by_cases hB : w.2.1 ≤ p0.2
    · exact absurd (iff_of_true hA hB) hne
    · exact cross_unit (Or.inl ⟨hA, hB⟩)
    · exact cross_unit (Or.inr (Or.inl ⟨hA, hB⟩))
    · exact absurd (iff_of_false hA hB) hne
  | right =>
    simp only [eAccept, eAxis, eBoundary, ne_eq, decide_eq_decide] at hne ⊢
    by_cases hA : p1.1 ≤ w.2.2.1 <;> by_cases hB : p0.1 ≤ w.2.2.1
    · exact absurd (iff_of_true hA hB) hne
    · exact cross_unit (Or.inr (Or.inr (Or.inl ⟨hA, hB⟩)))
    · exact cross_unit (Or.inr (Or.inr (Or.inr ⟨hA, hB⟩)))
    · exact absurd (iff_of_false hA hB) hne
  | top =>
    simp only [eAccept, eAxis, eBoundary, ne_eq, decide_eq_decide] at hne ⊢
    by_cases hA : p1.2 ≤ w.2.2.2 <;> by_cases hB : p0.2 ≤ w.2.2.2
    · exact absurd (iff_of_true hA hB) hne
    · exact cross_unit (Or.inr (Or.inr (Or.inl ⟨hA, hB⟩)))
    · exact cross_unit (Or.inr (Or.inr (Or.inr ⟨hA, hB⟩)))
    · exact absurd (iff_of_false hA hB) hne

/-- The selected coordinate of an interpolated point. -/
theorem eAxis_interp (e : Edge) (p0 p1 : Point) (t : ℚ) :
    eAxis e (interp p0 p1 t) = eAxis e p0 + t * (eAxis e p1 - eAxis e p0) := by
  cases e <;> simp [eAxis, interp]

/-- The interpolated crossing point lies exactly on the boundary. -/
theorem interp_on_boundary {w : Window} {e : Edge} {p0 p1 : Point}
    (hd : eAxis e p1 - eAxis e p0 ≠ 0) :
    eAxis e (interp p0 p1 ((eBoundary w e - eAxis e p0) / (eAxis e p1 - eAxis e p0)))
      = eBoundary w e := by
  rw [eAxis_interp, div_mul_cancel₀ _ hd]
  ring

/-- A point exactly on the boundary passes the edge's accept test. -/
theorem eAccept_of_on_boundary {w : Window} {e : Edge} {v : Point}
    (h : eAxis e v = eBoundary w e) : eAccept w e v = true := by
  cases e <;> simp only [eAccept, eAxis, eBoundary] at h ⊢ <;> rw [h] <;> simp

/-- Description of the elements a loop iteration can append: previous
accumulator elements, the accepted current vertex, or an interpolated
point on the boundary with parameter in `[0, 1]`. -/
theorem clipEdgeStep_ok_mem {w : Window} {e : Edge} {p0 p1 : Point}
    {acc out : List Point} (h : clipEdgeStep w e p0 p1 acc = .ok out) :
    ∀ v ∈ out, v ∈ acc ∨ (v = p1 ∧ eAccept w e p1 = true)
      ∨ (∃ t, 0 ≤ t ∧ t ≤ 1 ∧ v = interp p0 p1 t ∧ eAxis e v = eBoundary w e) := by
  intro v hv
  by_cases hA : eAccept w e p1 = true
  · by_cases hB : eAccept w e p0 = true
    · rw [clipEdgeStep, if_pos hA, if_pos hB] at h
      cases h
      rcases List.mem_append.mp hv with hv | hv
      · exact Or.inl hv
      · exact Or.inr (Or.inl ⟨List.mem_singleton.mp hv, hA⟩)
    · have hB' : eAccept w e p0 = false := Bool.eq_false_iff.mpr hB
      have hne : eAccept w e p1 ≠ eAccept w e p0 := by rw [hA, hB']; simp
      obtain ⟨hd, h0, h1⟩ := eAccept_ne_cross hne
      rw [clipEdgeStep, if_pos hA, if_neg hB, if_neg hd] at h
      cases h
      rcases List.mem_append.mp hv with hv | hv
      · exact Or.inl hv
      · rcases List.mem_cons.mp hv with rfl | hv
        · exact Or.inr (Or.inr ⟨_, h0, h1, rfl, interp_on_boundary hd⟩)
        · exact Or.inr (Or.inl ⟨List.mem_singleton.mp hv, hA⟩)
  · by_cases hB : eAccept w e p0 = true
    · have hA' : eAccept w e p1 = false := Bool.eq_false_iff.mpr hA
      have hne : eAccept w e p1 ≠ eAccept w e p0 := by rw [hA', hB]; simp
      obtain ⟨hd, h0, h1⟩ := eAccept_ne_cross hne
      rw [clipEdgeStep, if_neg hA, if_pos hB, if_neg hd] at h
      cases h
      rcases List.mem_append.mp hv with hv | hv
      · exact Or.inl hv
      · rcases List.mem_singleton.mp hv with rfl
        exact Or.inr (Or.inr ⟨_, h0, h1, rfl, interp_on_boundary hd⟩)
    · rw [clipEdgeStep, if_neg hA, if_neg hB] at h
      cases h
      exact Or.inl hv

/-- The loop never raises `ZeroDivisionError`: it always returns. -/
theorem clipEdgeStep_ok_exists (w : Window) (e : Edge) (p0 p1 : Point)
    (acc : List Point) : ∃ out, clipEdgeStep w e p0 p1 acc = .ok out := by
  by_cases hA : eAccept w e p1 = true
  · by_cases hB : eAccept w e p0 = true
    · exact ⟨_, by rw [clipEdgeStep, if_pos hA, if_pos hB]⟩
    · have hB' : eAccept w e p0 = false := Bool.eq_false_iff.mpr hB
      have hne : eAccept w e p1 ≠ eAccept w e p0 := by rw [hA, hB']; simp
      obtain ⟨hd, _, _⟩ := eAccept_ne_cross hne
      exact ⟨_, by rw [clipEdgeStep, if_pos hA, if_neg hB, if_neg hd]⟩
  · by_cases hB : eAccept w e p0 = true
    · have hA' : eAccept w e p1 = false := Bool.eq_false_iff.mpr hA
      have hne : eAccept w e p1 ≠ eAccept w e p0 := by rw [hA', hB]; simp
      obtain ⟨hd, _, _⟩ := eAccept_ne_cross hne
      exact ⟨_, by rw [clipEdgeStep, if_neg hA, if_pos hB, if_neg hd]⟩
    · exact ⟨_, by rw [clipEdgeStep, if_neg hA, if_neg hB]⟩

/-- Every vertex a stage outputs passes that stage's accept test. -/
theorem clipEdgeLoop_accept {w : Window} {e : Edge} :
    ∀ (l : List Point) (p0 : Point) (acc out : List Point),
      clipEdgeLoop w e p0 l acc = .ok out →
      (∀ v ∈ acc, eAccept w e v = true) → ∀ v ∈ out, eAccept w e v = true
  | [], _, acc, out, h, hacc => by
    cases h
    exact hacc
  | p1 :: rest, p0, acc, out, h, hacc => by
    rw [clipEdgeLoop] at h
    cases hstep : clipEdgeStep w e p0 p1 acc with
    | error err => rw [hstep] at h; cases h
    | ok acc' =>
      rw [hstep] at h
      refine clipEdgeLoop_accept rest p1 acc' out h ?_
      intro v hv
      rcases clipEdgeStep_ok_mem hstep v hv with hv | ⟨rfl, ha⟩ | ⟨t, _, _, _, hb⟩
      · exact hacc v hv
      · exact ha
      · exact eAccept_of_on_boundary hb

/-- Every convex-closed predicate holding on the input vertices (and the
accumulator) holds on the loop's output vertices. -/
theorem clipEdgeLoop_pred {w : Window} {e : Edge} {P : Point → Prop}
    (hP : ConvexClosed P) :
    ∀ (l : List Point) (p0 : Point) (acc out : List Point),
      clipEdgeLoop w e p0 l acc = .ok out →
      P p0 → (∀ q ∈ l, P q) → (∀ v ∈ acc, P v) → ∀ v ∈ out, P v
  | [], _, acc, out, h, _, _, hacc => by
    cases h
    exact hacc
  | p1 :: rest, p0, acc, out, h, hp0, hl, hacc => by
    rw [clipEdgeLoop] at h
    cases hstep : clipEdgeStep w e p0 p1 acc with
    | error err => rw [hstep] at h; cases h
    | ok acc' =>
      rw [hstep] at h
      have hp1 : P p1 := hl p1 (List.mem_cons_self _ _)
      refine clipEdgeLoop_pred hP rest p1 acc' out h hp1
        (fun q hq => hl q (List.mem_cons_of_mem _ hq)) ?_
      intro v hv
      rcases clipEdgeStep_ok_mem hstep v hv with hv | ⟨rfl, _⟩ | ⟨t, ht0, ht1, rfl, _⟩
      · exact hacc v hv
      · exact hp1
      · exact hP p0 p1 t ht0 ht1 hp0 hp1

/-- The loop is the identity (appended to the accumulator) when every
vertex passes the accept test. -/
theorem clipEdgeLoop_all_accept {w : Window} {e : Edge} :
    ∀ (l : List Point) (p0 : Point) (acc : List Point),
      eAccept w e p0 = true → (∀ q ∈ l, eAccept w e q = true) →
      clipEdgeLoop w e p0 l acc = .ok (acc ++ l)
  | [], _, acc, _, _ => by rw [clipEdgeLoop, List.append_nil]
  | p1 :: rest, p0, acc, h0, hl => by
    have h1 : eAccept w e p1 = true := hl p1 (List.mem_cons_self _ _)
    rw [clipEdgeLoop, clipEdgeStep, if_pos h1, if_pos h0]
    dsimp only
    rw [clipEdgeLoop_all_accept rest p1 (acc ++ [p1]) h1
      (fun q hq => hl q (List.mem_cons_of_mem _ hq))]
    simp

/-- Every vertex `clip_edge` outputs passes that edge's accept test. -/
theorem clip_edge_accept {w : Window} {poly : List Point} {e : Edge}
    {out : List Point} (h : clip_edge w poly e = .ok out) :
    ∀ v ∈ out, eAccept w e v = true := by
  unfold clip_edge at h
  cases hL : poly.getLast? with
  | none => rw [hL] at h; cases h
  | some plast =>
    rw [hL] at h
    exact clipEdgeLoop_accept poly plast [] out h (by intro v hv; cases hv)

/-- Every convex-closed predicate holding on the input vertices holds on
`clip_edge`'s output vertices. -/
theorem clip_edge_pred {w : Window} {poly : List Point} {e : Edge}
    {out : List Point} {P : Point → Prop} (hP : ConvexClosed P)
    (h : clip_edge w poly e = .ok out) (hin : ∀ q ∈ poly, P q) :
    ∀ v ∈ out, P v := by
  unfold clip_edge at h
  cases hL : poly.getLast? with
  | none => rw [hL] at h; cases h
  | some plast =>
    rw [hL] at h
    exact clipEdgeLoop_pred hP poly plast [] out h
      (hin plast (getLast?_mem_list hL)) hin (by intro v hv; cases hv)

/-- `clip_edge` is the identity on a non-empty polygon whose vertices all
pass the accept test. -/
theorem clip_edge_all_accept {w : Window} {poly : List Point} {e : Edge}
    (hne : poly ≠ []) (hacc : ∀ q ∈ poly, eAccept w e q = true) :
    clip_edge w poly e = .ok poly := by
  unfold clip_edge
  cases hL : poly.getLast? with
  | none =>
    cases poly with
    | nil => exact absurd rfl hne
    | cons a l => rw [List.getLast?_eq_getLast _ (by simp)] at hL; cases hL
  | some plast =>
    dsimp only
    rw [clipEdgeLoop_all_accept poly plast []
      (hacc plast (getLast?_mem_list hL)) hacc, List.nil_append]

/-- Each accept test is convex-closed. -/
theorem convexClosed_eAccept (w : Window) (e : Edge) :
    ConvexClosed (fun v => eAccept w e v = true) := by
  intro p q t ht0 ht1 hp hq
  cases e with
  | left =>
    simp only [eAccept, interp, ge_iff_le, decide_eq_true_eq] at hp hq ⊢
    nlinarith [mul_nonneg ht0 (by linarith : (0 : ℚ) ≤ q.1 - w.1),
      mul_nonneg (by linarith : (0 : ℚ) ≤ 1 - t) (by linarith : (0 : ℚ) ≤ p.1 - w.1)]
  | bottom =>
    simp only [eAccept, interp, ge_iff_le, decide_eq_true_eq] at hp hq ⊢
    nlinarith [mul_nonneg ht0 (by linarith : (0 : ℚ) ≤ q.2 - w.2.1),
      mul_nonneg (by linarith : (0 : ℚ) ≤ 1 - t) (by linarith : (0 : ℚ) ≤ p.2 - w.2.1)]
  | right =>
    simp only [eAccept, interp, decide_eq_true_eq] at hp hq ⊢
    nlinarith [mul_nonneg ht0 (by linarith : (0 : ℚ) ≤ w.2.2.1 - q.1),
      mul_nonneg (by linarith : (0 : ℚ) ≤ 1 - t) (by linarith : (0 : ℚ) ≤ w.2.2.1 - p.1)]
  | top =>
    simp only [eAccept, interp, decide_eq_true_eq] at hp hq ⊢
    nlinarith [mul_nonneg ht0 (by linarith : (0 : ℚ) ≤ w.2.2.2 - q.2),
      mul_nonneg (by linarith : (0 : ℚ) ≤ 1 - t) (by linarith : (0 : ℚ) ≤ w.2.2.2 - p.2)]

/-- The inside test is the conjunction of the four accept tests. -/
theorem is_inside_of_eAccepts {v : Point} {w : Window}
    (hl : eAccept w .left v = true) (hb : eAccept w .bottom v = true)
    (hr : eAccept w .right v = true) (ht : eAccept w .top v = true) :
    is_inside v w = true := by
  obtain ⟨x, y⟩ := v
  obtain ⟨xmin, ymin, xmax, ymax⟩ := w
  simp only [eAccept, ge_iff_le, decide_eq_true_eq] at hl hb hr ht
  exact is_inside_iff.mpr ⟨hl, hr, hb, ht⟩

/-- Conversely, an inside vertex passes every accept test. -/
theorem eAccept_of_is_inside {v : Point} {w : Window} (e : Edge)
    (h : is_inside v w = true) : eAccept w e v = true := by
  obtain ⟨x, y⟩ := v
  obtain ⟨xmin, ymin, xmax, ymax⟩ := w
  obtain ⟨h1, h2, h3, h4⟩ := is_inside_iff.mp h
  cases e <;> simp only [eAccept, ge_iff_le, decide_eq_true_eq] <;> assumption

/-- Every vertex `sutherland_hodgman_clip` outputs satisfies the closed
inside test. -/
theorem shClip_ok_inside {poly : List Point} {w : Window} {out : List Point}
    (h : sutherland_hodgman_clip poly w = .ok out) :
    ∀ v ∈ out, is_inside v w = true := by
  unfold sutherland_hodgman_clip at h
  cases h1 : clip_edge w poly .left with
  | error err => rw [h1] at h; cases h
  | ok q1 =>
    rw [h1] at h
    dsimp only at h
    cases h2 : clip_edge w q1 .bottom with
    | error err => rw [h2] at h; cases h
    | ok q2 =>
      rw [h2] at h
      dsimp only at h
      cases h3 : clip_edge w q2 .right with
      | error err => rw [h3] at h; cases h
      | ok q3 =>
        rw [h3] at h
        dsimp only at h
        intro v hv
        have hacc1 : ∀ u ∈ q1, eAccept w .left u = true := clip_edge_accept h1
        have hacc2 : ∀ u ∈ q2, eAccept w .left u = true :=
          clip_edge_pred (convexClosed_eAccept w .left) h2 hacc1
        have hacc3 : ∀ u ∈ q3, eAccept w .left u = true :=
          clip_edge_pred (convexClosed_eAccept w .left) h3 hacc2
        have haccL : eAccept w .left v = true :=
          clip_edge_pred (convexClosed_eAccept w .left) h hacc3 v hv
        have hacc2b : ∀ u ∈ q2, eAccept w .bottom u = true := clip_edge_accept h2
        have hacc3b : ∀ u ∈ q3, eAccept w .bottom u = true :=
          clip_edge_pred (convexClosed_eAccept w .bottom) h3 hacc2b
        have haccB : eAccept w .bottom v = true :=
          clip_edge_pred (convexClosed_eAccept w .bottom) h hacc3b v hv
        have hacc3r : ∀ u ∈ q3, eAccept w .right u = true := clip_edge_accept h3
        have haccR : eAccept w .right v = true :=
          clip_edge_pred (convexClosed_eAccept w .right) h hacc3r v hv
        have haccT : eAccept w .top v = true := clip_edge_accept h v hv
        exact is_inside_of_eAccepts haccL haccB haccR haccT

/-- `sutherland_hodgman_clip` is the identity on a non-empty polygon whose
vertices are all inside the window. -/
theorem shClip_all_inside_id {poly : List Point} {w : Window} (hne : poly ≠ [])
    (hin : ∀ v ∈ poly, is_inside v w = true) :
    sutherland_hodgman_clip poly w = .ok poly := by
  have hid : ∀ e : Edge, clip_edge w poly e = .ok poly := fun e =>
    clip_edge_all_accept hne (fun q hq => eAccept_of_is_inside e (hin q hq))
  unfold sutherland_hodgman_clip
  rw [hid .left]
  dsimp only
  rw [hid .bottom]
  dsimp only
  rw [hid .right]
  dsimp only
  rw [hid .top]

/-! ## Totality of the segment clipper (the half of claim C4 that holds) -/

/-- When exactly the first endpoint is inside, some crossing parameter is
retained, so the indexing `t_values[0]` cannot fail. -/
theorem t_list_ne_nil_of_first {s : Segment} {w : Window}
    (h1 : is_inside s.1 w = true) (h2 : is_inside s.2 w = false) :
    t_list s w ≠ [] := by
  obtain ⟨⟨x1, y1⟩, ⟨x2, y2⟩⟩ := s
  obtain ⟨xmin, ymin, xmax, ymax⟩ := w
  obtain ⟨hx1min, hx1max, hy1min, hy1max⟩ := is_inside_iff.mp h1
  have h2' : ¬ (xmin ≤ x2 ∧ x2 ≤ xmax ∧ ymin ≤ y2 ∧ y2 ≤ ymax) := by
    intro hc
    rw [is_inside_iff.mpr hc] at h2
    cases h2
  intro hnil
  have hout : x2 < xmin ∨ xmax < x2 ∨ y2 < ymin ∨ ymax < y2 := by
    by_contra hc
    push_neg at hc
    exact h2' ⟨hc.1, hc.2.1, hc.2.2.1, hc.2.2.2⟩
  rcases hout with h | h | h | h
  · have hd : x2 - x1 ≠ 0 := by intro hc; nlinarith
    have hmem : (xmin - x1) / (x2 - x1) ∈
        t_list ((x1, y1), (x2, y2)) (xmin, ymin, xmax, ymax) :=
      mem_t_list_xmin hd
        (div_nonneg_iff.mpr (Or.inr ⟨by linarith, by linarith⟩))
        ((div_le_iff_of_neg (by linarith)).mpr (by linarith))
    rw [hnil] at hmem
    exact absurd hmem (List.not_mem_nil _)
  · have hd : x2 - x1 ≠ 0 := by intro hc; nlinarith
    have hmem : (xmax - x1) / (x2 - x1) ∈
        t_list ((x1, y1), (x2, y2)) (xmin, ymin, xmax, ymax) :=
      mem_t_list_xmax hd (div_nonneg (by linarith) (by linarith))
        ((div_le_one (by linarith)).mpr (by linarith))
    rw [hnil] at hmem
    exact absurd hmem (List.not_mem_nil _)
  · have hd : y2 - y1 ≠ 0 := by intro hc; nlinarith
    have hmem : (ymin - y1) / (y2 - y1) ∈
        t_list ((x1, y1), (x2, y2)) (xmin, ymin, xmax, ymax) :=
      mem_t_list_ymin hd
        (div_nonneg_iff.mpr (Or.inr ⟨by linarith, by linarith⟩))
        ((div_le_iff_of_neg (by linarith)).mpr (by linarith))
    rw [hnil] at hmem
    exact absurd hmem (List.not_mem_nil _)
  · have hd : y2 - y1 ≠ 0 := by intro hc; nlinarith
    have hmem : (ymax - y1) / (y2 - y1) ∈
        t_list ((x1, y1), (x2, y2)) (xmin, ymin, xmax, ymax) :=
      mem_t_list_ymax hd (div_nonneg (by linarith) (by linarith))
        ((div_le_one (by linarith)).mpr (by linarith))
    rw [hnil] at hmem
    exact absurd hmem (List.not_mem_nil _)

/-- When exactly the second endpoint is inside, some crossing parameter is
retained, so the indexing `t_values[-1]` cannot fail. -/
theorem t_list_ne_nil_of_second {s : Segment} {w : Window}
    (h1 : is_inside s.1 w = false) (h2 : is_inside s.2 w = true) :
    t_list s w ≠ [] := by
  obtain ⟨⟨x1, y1⟩, ⟨x2, y2⟩⟩ := s
  obtain ⟨xmin, ymin, xmax, ymax⟩ := w
  obtain ⟨hx2min, hx2max, hy2min, hy2max⟩ := is_inside_iff.mp h2
  have h1' : ¬ (xmin ≤ x1 ∧ x1 ≤ xmax ∧ ymin ≤ y1 ∧ y1 ≤ ymax) := by
    intro hc
    rw [is_inside_iff.mpr hc] at h1
    cases h1
  intro hnil
  have hout : x1 < xmin ∨ xmax < x1 ∨ y1 < ymin ∨ ymax < y1 := by
    by_contra hc
    push_neg at hc
    exact h1' ⟨hc.1, hc.2.1, hc.2.2.1, hc.2.2.2⟩
  rcases hout with h | h | h | h
  · have hd : x2 - x1 ≠ 0 := by intro hc; nlinarith
    have hmem : (xmin - x1) / (x2 - x1) ∈
        t_list ((x1, y1), (x2, y2)) (xmin, ymin, xmax, ymax) :=
      mem_t_list_xmin hd (div_nonneg (by linarith) (by linarith))
        ((div_le_one (by linarith)).mpr (by linarith))
    rw [hnil] at hmem
    exact absurd hmem (List.not_mem_nil _)
  · have hd : x2 - x1 ≠ 0 := by intro hc; nlinarith
    have hmem : (xmax - x1) / (x2 - x1) ∈
        t_list ((x1, y1), (x2, y2)) (xmin, ymin, xmax, ymax) :=
      mem_t_list_xmax hd
        (div_nonneg_iff.mpr (Or.inr ⟨by linarith, by linarith⟩))
        ((div_le_iff_of_neg (by linarith)).mpr (by linarith))
    rw [hnil] at hmem
    exact absurd hmem (List.not_mem_nil _)
  · have hd : y2 - y1 ≠ 0 := by intro hc; nlinarith
    have hmem : (ymin - y1) / (y2 - y1) ∈
        t_list ((x1, y1), (x2, y2)) (xmin, ymin, xmax, ymax) :=
      mem_t_list_ymin hd (div_nonneg (by linarith) (by linarith))
        ((div_le_one (by linarith)).mpr (by linarith))
    rw [hnil] at hmem
    exact absurd hmem (List.not_mem_nil _)
  · have hd : y2 - y1 ≠ 0 := by intro hc; nlinarith
    have hmem : (ymax - y1) / (y2 - y1) ∈
        t_list ((x1, y1), (x2, y2)) (xmin, ymin, xmax, ymax) :=
      mem_t_list_ymax hd
        (div_nonneg_iff.mpr (Or.inr ⟨by linarith, by linarith⟩))
        ((div_le_iff_of_neg (by linarith)).mpr (by linarith))
    rw [hnil] at hmem
    exact absurd hmem (List.not_mem_nil _)

/-- `cohen_sutherland_clip` is total: it never raises, on any segment and
any window whatsoever (the segment half of claim C4; the polygon half
fails, see `C4_clip_polygon_not_total`). -/
theorem cohen_sutherland_clip_total (s : Segment) (w : Window) :
    ∃ r, cohen_sutherland_clip s w = .ok r := by
  by_cases h1 : is_inside s.1 w = true
  · by_cases h2 : is_inside s.2 w = true
    · exact ⟨_, csClip_both h1 h2⟩
    · have h2' : is_inside s.2 w = false := Bool.eq_false_iff.mpr h2
      have hne : sortedT s w ≠ [] := by
        intro hc
        apply t_list_ne_nil_of_first h1 h2'
        have hlen := (List.perm_insertionSort (· ≤ ·) (t_list s w)).length_eq
        rw [show List.insertionSort (· ≤ ·) (t_list s w) = sortedT s w from rfl,
          hc] at hlen
        exact List.length_eq_zero.mp hlen.symm
      cases hh : (sortedT s w).head? with
      | none => exact absurd (List.head?_eq_none_iff.mp hh) hne
      | some t0 => exact ⟨_, by rw [csClip_first h1 h2', hh]⟩
  · have h1' : is_inside s.1 w = false := Bool.eq_false_iff.mpr h1
    by_cases h2 : is_inside s.2 w = true
    · have hne : sortedT s w ≠ [] := by
        intro hc
        apply t_list_ne_nil_of_second h1' h2
        have hlen := (List.perm_insertionSort (· ≤ ·) (t_list s w)).length_eq
        rw [show List.insertionSort (· ≤ ·) (t_list s w) = sortedT s w from rfl,
          hc] at hlen
        exact List.length_eq_zero.mp hlen.symm
      cases hh : (sortedT s w).getLast? with
      | none => exact absurd (List.getLast?_eq_none_iff.mp hh) hne
      | some tL => exact ⟨_, by rw [csClip_second h1' h2, hh]⟩
    · have h2' : is_inside s.2 w = false := Bool.eq_false_iff.mpr h2
      rw [csClip_neither h1' h2']
      cases sortedT s w with
      | nil => exact ⟨_, rfl⟩
      | cons t1 rest =>
        cases rest with
        | nil => exact ⟨_, rfl⟩
        | cons t2 rest' => exact ⟨_, rfl⟩

/-! ## Claim C3 -/

/-- C3: the triangle `(-5,1),(-1,1),(-1,5)` lies entirely left of the
disjoint well-formed window `(0,0,10,10)` (every vertex fails the inside
test), yet `sutherland_hodgman_clip` does not return an empty sequence: it
raises `IndexError`, because the left stage empties the polygon and the
bottom stage evaluates `polygon[-1]` on the empty list. -/
theorem C3_outside_polygon_raises :
    sutherland_hodgman_clip [((-5 : ℚ), 1), ((-1 : ℚ), 1), ((-1 : ℚ), 5)]
        ((0 : ℚ), 0, 10, 10) = .error .indexError
      ∧ (∀ v ∈ [((-5 : ℚ), 1), ((-1 : ℚ), 1), ((-1 : ℚ), 5)],
          is_inside v ((0 : ℚ), 0, 10, 10) = false)
      ∧ (0 : ℚ) ≤ 10 ∧ (0 : ℚ) ≤ 10 := by
  refine ⟨by decide, ?_, by norm_num, by norm_num⟩
  intro v hv
  fin_cases hv <;> decide

/-! ## Claim C4 -/

/-- C4: `sutherland_hodgman_clip` is not total on well-formed input: for
the non-empty triangle `(-3,2),(-2,2),(-2,3)` and the well-formed window
`(0,0,10,10)` it raises `IndexError` instead of returning an empty
sequence (the left stage empties the polygon; the bottom stage indexes
`polygon[-1]` on the empty list). -/
theorem C4_clip_polygon_not_total :
    sutherland_hodgman_clip [((-3 : ℚ), 2), ((-2 : ℚ), 2), ((-2 : ℚ), 3)]
        ((0 : ℚ), 0, 10, 10) = .error .indexError
      ∧ [((-3 : ℚ), 2), ((-2 : ℚ), 2), ((-2 : ℚ), 3)] ≠ ([] : List Point)
      ∧ (0 : ℚ) ≤ 10 ∧ (0 : ℚ) ≤ 10 := by
  exact ⟨by decide, by decide, by norm_num, by norm_num⟩

/-! ## Claim C5 -/

/-- C5, counterexample: clipping `(-1,-2)–(11,10)` against `(0,0,10,10)`
yields `(0,-1)–(1,0)` (whose first endpoint is outside), and clipping that
result again yields the different segment `(1,0)–(1,0)`, refuting
idempotence as claimed. -/
theorem C5_counterexample :
    cohen_sutherland_clip (((-1 : ℚ), -2), ((11 : ℚ), 10)) ((0 : ℚ), 0, 10, 10)
        = .ok (some (((0 : ℚ), -1), ((1 : ℚ), 0)))
      ∧ cohen_sutherland_clip (((0 : ℚ), -1), ((1 : ℚ), 0)) ((0 : ℚ), 0, 10, 10)
        = .ok (some (((1 : ℚ), 0), ((1 : ℚ), 0)))
      ∧ (Except.ok (some (((1 : ℚ), 0), ((1 : ℚ), 0))) :
          Except PErr (Option Segment))
        ≠ .ok (some (((0 : ℚ), -1), ((1 : ℚ), 0))) := by
  refine ⟨?_, ?_, by decide⟩
  · norm_num [cohen_sutherland_clip, sortedT, t_list, compute_t, is_inside, pAt,
      List.insertionSort, List.orderedInsert]
  · norm_num [cohen_sutherland_clip, sortedT, t_list, compute_t, is_inside, pAt,
      List.insertionSort, List.orderedInsert]

/-- C5 (amended): re-clipping is the identity on the part of the image the
clippers keep inside the window: a produced segment whose endpoints are
both inside is returned unchanged by a second clip, and a produced
non-empty polygon is returned unchanged by a second clip.  (The original
claim fails because a pass-through segment result can have an endpoint
outside the window, and a polygon result can be empty, on which
`clip_polygon` raises rather than returning it.) -/
theorem C5_idempotence_amended :
    (∀ (s : Segment) (w : Window) (r : Segment),
        cohen_sutherland_clip s w = .ok (some r) →
        is_inside r.1 w = true → is_inside r.2 w = true →
        cohen_sutherland_clip r w = .ok (some r))
      ∧ (∀ (p : List Point) (w : Window) (q : List Point),
          sutherland_hodgman_clip p w = .ok q → q ≠ [] →
          sutherland_hodgman_clip q w = .ok q) :=
  ⟨fun _ _ _ _ h1 h2 => csClip_both h1 h2,
   fun _ _ _ hq hne => shClip_all_inside_id hne (shClip_ok_inside hq)⟩

/-- C5, witness: both amended parts applied to concrete data — the
segment `(2,2)–(10,2)` (a clip result with both endpoints inside) and the
polygon `[(2,2),(8,2)]` (a non-empty clip result). -/
theorem C5_witness :
    cohen_sutherland_clip (((2 : ℚ), 2), ((10 : ℚ), 2)) ((0 : ℚ), 0, 10, 10)
        = .ok (some (((2 : ℚ), 2), ((10 : ℚ), 2)))
      ∧ sutherland_hodgman_clip [((2 : ℚ), 2), ((8 : ℚ), 2)] ((0 : ℚ), 0, 10, 10)
        = .ok [((2 : ℚ), 2), ((8 : ℚ), 2)] :=
  ⟨C5_idempotence_amended.1 (((2 : ℚ), 2), ((10 : ℚ), 2)) ((0 : ℚ), 0, 10, 10)
      (((2 : ℚ), 2), ((10 : ℚ), 2)) (by decide) (by decide) (by decide),
   C5_idempotence_amended.2 [((2 : ℚ), 2), ((8 : ℚ), 2)] ((0 : ℚ), 0, 10, 10)
      [((2 : ℚ), 2), ((8 : ℚ), 2)] (by decide) (by decide)⟩

/-! ## Claim C6 -/

/-- C6: for every well-formed window and every (per the data model,
non-empty) polygon all of whose vertices satisfy the closed inside test,
`clip_polygon` returns exactly the original vertex sequence. -/
theorem C6_polygon_inside_identity (poly : List Point) (w : Window)
    (hwx : w.1 ≤ w.2.2.1) (hwy : w.2.1 ≤ w.2.2.2) (hne : poly ≠ [])
    (hin : ∀ v ∈ poly, is_inside v w = true) :
    sutherland_hodgman_clip poly w = .ok poly :=
  shClip_all_inside_id hne hin

/-- C6, witness: the square `(2,2),(8,2),(8,8),(2,8)` inside the window
`(0,0,10,10)` is returned unchanged. -/
theorem C6_witness :
    sutherland_hodgman_clip [((2 : ℚ), 2), ((8 : ℚ), 2), ((8 : ℚ), 8), ((2 : ℚ), 8)]
        ((0 : ℚ), 0, 10, 10)
      = .ok [((2 : ℚ), 2), ((8 : ℚ), 2), ((8 : ℚ), 8), ((2 : ℚ), 8)] :=
  C6_polygon_inside_identity
    [((2 : ℚ), 2), ((8 : ℚ), 2), ((8 : ℚ), 8), ((2 : ℚ), 8)] ((0 : ℚ), 0, 10, 10)
    (by norm_num) (by norm_num) (by decide) (by intro v hv; fin_cases hv <;> decide)

/-! ## Claim C9 -/

/-- C9: in every clipping stage, whenever the two consecutive vertices
disagree on the accept test, their coordinates along the stage's axis
differ (so the interpolation divisor is nonzero and the zero-delta
`continue` branch after the division is unreachable — the iteration does
not raise `ZeroDivisionError`), and the interpolation parameter lies in
`[0, 1]`. -/
theorem C9_crossing_division_safe (w : Window) (e : Edge) (p0 p1 : Point)
    (acc : List Point) (hne : eAccept w e p1 ≠ eAccept w e p0) :
    eAxis e p1 - eAxis e p0 ≠ 0
      ∧ 0 ≤ (eBoundary w e - eAxis e p0) / (eAxis e p1 - eAxis e p0)
      ∧ (eBoundary w e - eAxis e p0) / (eAxis e p1 - eAxis e p0) ≤ 1
      ∧ clipEdgeStep w e p0 p1 acc ≠ .error .zeroDivisionError := by
  obtain ⟨hd, h0, h1⟩ := eAccept_ne_cross hne
  refine ⟨hd, h0, h1, ?_⟩
  obtain ⟨out, hout⟩ := clipEdgeStep_ok_exists w e p0 p1 acc
  rw [hout]
  intro hc
  cases hc

/-- C9, witness: the left edge of the window `(0,0,10,10)` with the
crossing edge `(-2,0) → (4,0)`. -/
theorem C9_witness :
    eAxis .left ((4 : ℚ), 0) - eAxis .left ((-2 : ℚ), 0) ≠ 0
      ∧ 0 ≤ (eBoundary ((0 : ℚ), 0, 10, 10) .left - eAxis .left ((-2 : ℚ), 0))
          / (eAxis .left ((4 : ℚ), 0) - eAxis .left ((-2 : ℚ), 0))
      ∧ (eBoundary ((0 : ℚ), 0, 10, 10) .left - eAxis .left ((-2 : ℚ), 0))
          / (eAxis .left ((4 : ℚ), 0) - eAxis .left ((-2 : ℚ), 0)) ≤ 1
      ∧ clipEdgeStep ((0 : ℚ), 0, 10, 10) .left ((-2 : ℚ), 0) ((4 : ℚ), 0) []
          ≠ .error .zeroDivisionError :=
  C9_crossing_division_safe ((0 : ℚ), 0, 10, 10) .left ((-2 : ℚ), 0) ((4 : ℚ), 0) []
    (by decide)

/-! ## Claim C8 -/

/-- C8: the input `"2\n1 1 2 2\n"` (two declared segments, one supplied)
makes `parse_input_data` subscript `data[2]` past the end of the list: it
raises a bare `IndexError`, which is not a `ParseError` carrying the
missing line's number. -/
theorem C8_missing_segment_line :
    parse_input_data ["2", "1 1 2 2"] = .error .indexError
      ∧ ∀ msg : String, PErr.indexError ≠ PErr.valueError msg :=
  ⟨by decide, fun _ h => by cases h⟩

/-! ## Claim C7 -/

/-- C7, counterexample: the input with window line `10 10 0 0`
(`Xmin = 10 > Xmax = 0` and `Ymin = 10 > Ymax = 0`) parses successfully —
no error is reported for the violated window invariant. -/
theorem C7_counterexample :
    parse_input_data ["0", "10 10 0 0"] = .ok ([], ((10 : ℚ), 10, 0, 0), [])
      ∧ ¬ ((10 : ℚ) ≤ 0) :=
  ⟨by decide, by norm_num⟩

/-- Auxiliary: evaluation of `parse_input_data` on a zero-segment input
consisting of the count line `"0"` and one window line. -/
theorem parse_zero_segments (wline : String) :
    parse_input_data ["0", wline] =
      (match pyFloats (pySplit wline.toList) with
       | none => .error (.valueError "could not convert string to float")
       | some ws =>
         match ws with
         | [xmin, ymin, xmax, ymax] => .ok ([], (xmin, ymin, xmax, ymax), [])
         | _ => .error (.valueError "Invalid clipping window data. Expected 4 coordinates.")) := by
  have h0 : pyInt (pyStrip ("0".toList)) = some 0 := by decide
  unfold parse_input_data
  dsimp only
  rw [h0]
  dsimp only
  have hsR : segRange 0 = [] := by decide
  rw [hsR, List.mapM_nil]
  rfl

/-- C7 (amended): `parse_input_data` performs no window-invariant check:
an otherwise well-formed input whose window line violates
`Xmin ≤ Xmax` or `Ymin ≤ Ymax` is not rejected — parse succeeds and
returns the violating window as given (stated for inputs declaring zero
segments and carrying no polygon line, the shape of the counterexample). -/
theorem C7_no_window_invariant_check (wline : String) (a b c d : ℚ)
    (hw : pyFloats (pySplit wline.toList) = some [a, b, c, d])
    (hviol : ¬ (a ≤ c) ∨ ¬ (b ≤ d)) :
    parse_input_data ["0", wline] = .ok ([], (a, b, c, d), []) := by
  rw [parse_zero_segments, hw]

/-- C7, witness: the amended theorem applied to the window line
`"10 10 0 0"`, which violates both invariant halves. -/
theorem C7_witness :
    parse_input_data ["0", "10 10 0 0"] = .ok ([], ((10 : ℚ), 10, 0, 0), []) :=
  C7_no_window_invariant_check "10 10 0 0" 10 10 0 0 (by decide)
    (Or.inl (by norm_num))

/-! ## Claim C10 -/

/-- Python subscription agrees on two lists that agree up to index `m`
(for non-negative indices below `m`). -/
theorem pyGetE_congr {d1 d2 : List String} {m : ℕ} (htake : d1.take m = d2.take m)
    {i : ℤ} (h0 : 0 ≤ i) (hi : i.toNat < m) : pyGetE d1 i = pyGetE d2 i := by
  have hg : d1.get? i.toNat = d2.get? i.toNat := by
    have e1 : (d1.take m).get? i.toNat = d1.get? i.toNat := List.get?_take hi
    have e2 : (d2.take m).get? i.toNat = d2.get? i.toNat := List.get?_take hi
    rw [← e1, ← e2, htake]
  unfold pyGetE pyIdx
  rw [if_pos h0, if_pos h0, hg]

/-- The segment-line reader agrees on two lists that agree up to index `m`. -/
theorem parseSegLine_congr {d1 d2 : List String} {m : ℕ}
    (htake : d1.take m = d2.take m) {i : ℤ} (h0 : 0 ≤ i) (hi : i.toNat < m) :
    parseSegLine d1 i = parseSegLine d2 i := by
  unfold parseSegLine
  rw [pyGetE_congr htake h0 hi]

/-- The whole segment loop agrees on two lists that agree up to index `m`,
as long as every loop index is non-negative and below `m`. -/
theorem mapM_parseSegLine_congr {d1 d2 : List String} {m : ℕ}
    (htake : d1.take m = d2.take m) :
    ∀ l : List ℤ, (∀ i ∈ l, 0 ≤ i ∧ i.toNat < m) →
      l.mapM (parseSegLine d1) = l.mapM (parseSegLine d2)
  | [], _ => rfl
  | i :: rest, h => by
    rw [List.mapM_cons, List.mapM_cons,
      parseSegLine_congr htake (h i (List.mem_cons_self _ _)).1
        (h i (List.mem_cons_self _ _)).2,
      mapM_parseSegLine_congr htake rest (fun j hj => h j (List.mem_cons_of_mem _ hj))]

/-- Bounds of the segment loop's indices. -/
theorem segRange_mem_bounds {n : ℕ} {i : ℤ} (h : i ∈ segRange (n : ℤ)) :
    0 ≤ i ∧ i.toNat < n + 3 := by
  unfold segRange at h
  rw [List.mem_map] at h
  obtain ⟨k, hk, rfl⟩ := h
  rw [List.mem_range, Int.toNat_natCast] at hk
  rw [Int.ofNat_eq_natCast]
  omega

/-- The polygon block agrees on two lists that agree up to index `n + 3`
and both extend past index `n + 2`. -/
theorem parsePoly_congr {d1 d2 : List String} {n : ℕ}
    (htake : d1.take (n + 3) = d2.take (n + 3))
    (hlen1 : n + 2 < d1.length) (hlen2 : n + 2 < d2.length) :
    parsePoly d1 (n : ℤ) = parsePoly d2 (n : ℤ) := by
  unfold parsePoly
  rw [if_pos (by omega : ((d1.length : ℕ) : ℤ) > (n : ℤ) + 2),
    if_pos (by omega : ((d2.length : ℕ) : ℤ) > (n : ℤ) + 2),
    pyGetE_congr htake (by omega) (by omega : ((n : ℤ) + 2).toNat < n + 3)]

/-- C10: `parse_input_data` reads only lines `0` through `n + 2`: two
inputs that agree on those lines (where line 0 declares `n` and a line
`n + 2` exists, here starting with `P`) parse identically — trailing
lines are silently ignored. -/
theorem C10_trailing_lines_ignored (d1 d2 : List String) (n : ℕ) (l0 : String)
    (h0 : d1.head? = some l0)
    (hn : pyInt (pyStrip l0.toList) = some (n : ℤ))
    (hlen1 : n + 2 < d1.length) (hlen2 : n + 2 < d2.length)
    (htake : d1.take (n + 3) = d2.take (n + 3))
    (hP : ∃ pl, d1.get? (n + 2) = some pl ∧ pl.toList.head? = some 'P') :
    parse_input_data d1 = parse_input_data d2 := by
  cases d1 with
  | nil => cases h0
  | cons a t1 =>
    have ha : a = l0 := by
      simp only [List.head?_cons, Option.some.injEq] at h0
      exact h0
    subst ha
    cases d2 with
    | nil => simp at hlen2
    | cons b t2 =>
      have hb : a = b := by
        have h := htake
        rw [show n + 3 = (n + 2) + 1 from rfl, List.take_succ_cons,
          List.take_succ_cons] at h
        exact (List.cons.injEq _ _ _ _).mp h |>.1
      subst hb
      unfold parse_input_data
      dsimp only
      rw [hn]
      dsimp only
      rw [mapM_parseSegLine_congr htake (segRange (n : ℤ))
          (fun i hi => ⟨(segRange_mem_bounds hi).1, by
            have := (segRange_mem_bounds hi).2; omega⟩),
        pyGetE_congr htake (by omega : (0 : ℤ) ≤ (n : ℤ) + 1)
          (by omega : ((n : ℤ) + 1).toNat < n + 3),
        parsePoly_congr htake hlen1 hlen2]
      simp only [if_neg (by omega : ¬ (((a :: t1).length : ℤ) < (n : ℤ) + 2)),
        if_neg (by omega : ¬ (((a :: t2).length : ℤ) < (n : ℤ) + 2))]

/-- C10, witness: two inputs agreeing on lines 0–2 (`n = 0`), one with a
trailing junk line, parse identically. -/
theorem C10_witness :
    parse_input_data ["0", "0 0 10 10", "P 1 1 2 2"]
      = parse_input_data ["0", "0 0 10 10", "P 1 1 2 2", "junk trailing line"] :=
  C10_trailing_lines_ignored ["0", "0 0 10 10", "P 1 1 2 2"]
    ["0", "0 0 10 10", "P 1 1 2 2", "junk trailing line"] 0 "0"
    (by decide) (by decide) (by decide) (by decide) (by decide)
    ⟨"P 1 1 2 2", by decide, by decide⟩

end App
